import Mathlib

/-!
Verification of the vocabulary app's data and scheduling engine (`src/app.js`).

The engine is embedded shallowly:

* JavaScript numbers are modelled by `JSNum`: either a finite rational or one
  of the non-finite values (`NaN`, `Infinity`, `-Infinity`).  All arithmetic
  the app performs on these values (`||` defaulting, `Math.max`, `Math.min`,
  `Math.round`, multiplication, addition) is given its JS semantics.
* JavaScript strings are modelled as `List Char`; `String.prototype.trim`,
  `toLowerCase` and `includes` are modelled on such lists.
* Local civil time is modelled with a fixed UTC offset `tz` (no DST): the
  local day of epoch-millisecond `t` is `⌊(t + tz) / 86400000⌋` and local
  midnight of day `d` is `d * 86400000 - tz`.
* The backup synchronizer (`backupToLinkedFile` and its callers) is modelled
  as an explicit state machine; the single-threaded event-loop interleavings
  relevant to the claims are captured by composing its step functions.
-/

namespace VocaApp

/-- A JavaScript number as observed by this app: a finite rational, `NaN`,
`Infinity`, or `-Infinity`. -/
inductive JSNum where
  | fin (q : ℚ)
  | nan
  | inf
  | negInf
deriving DecidableEq

/-- `Number.isFinite`. -/
def JSNum.isFinite : JSNum → Bool
  | .fin _ => true
  | _ => false

/-- JS truthiness of a number: `0` and `NaN` are falsy, everything else truthy. -/
def JSNum.truthy : JSNum → Bool
  | .fin q => decide (q ≠ 0)
  | .nan => false
  | .inf => true
  | .negInf => true

/-- JS `a || b` on numbers: `b` when `a` is falsy. -/
def jsOr (a b : JSNum) : JSNum := if a.truthy then a else b

/-- JS `Math.max a b`. -/
def jsMaxN : JSNum → JSNum → JSNum
  | .nan, _ => .nan
  | _, .nan => .nan
  | .inf, _ => .inf
  | _, .inf => .inf
  | .negInf, b => b
  | a, .negInf => a
  | .fin a, .fin b => .fin (max a b)

/-- JS `Math.min a b`. -/
def jsMinN : JSNum → JSNum → JSNum
  | .nan, _ => .nan
  | _, .nan => .nan
  | .negInf, _ => .negInf
  | _, .negInf => .negInf
  | .inf, b => b
  | a, .inf => a
  | .fin a, .fin b => .fin (min a b)

/-- JS `a + b` on numbers. -/
def jsAdd : JSNum → JSNum → JSNum
  | .fin a, .fin b => .fin (a + b)
  | .nan, _ => .nan
  | _, .nan => .nan
  | .inf, .negInf => .nan
  | .negInf, .inf => .nan
  | .inf, _ => .inf
  | _, .inf => .inf
  | .negInf, _ => .negInf
  | _, .negInf => .negInf

/-- JS `a * b` on numbers. -/
def jsMul : JSNum → JSNum → JSNum
  | .fin a, .fin b => .fin (a * b)
  | .nan, _ => .nan
  | _, .nan => .nan
  | .inf, .inf => .inf
  | .inf, .negInf => .negInf
  | .negInf, .inf => .negInf
  | .negInf, .negInf => .inf
  | .inf, .fin b => if 0 < b then .inf else if b < 0 then .negInf else .nan
  | .fin a, .inf => if 0 < a then .inf else if a < 0 then .negInf else .nan
  | .negInf, .fin b => if 0 < b then .negInf else if b < 0 then .inf else .nan
  | .fin a, .negInf => if 0 < a then .negInf else if a < 0 then .inf else .nan

/-- JS `Math.round`: round half toward `+∞` on finite values (Mathlib's
`round` is `⌊x + 1/2⌋`, which agrees with `Math.round` on all rationals);
`NaN` and infinities pass through. -/
def jsRoundN : JSNum → JSNum
  | .fin q => .fin ((round q : ℤ) : ℚ)
  | x => x

/-- `String.prototype.trim` on a list of characters. -/
def jsTrim (s : List Char) : List Char :=
  ((s.dropWhile Char.isWhitespace).reverse.dropWhile Char.isWhitespace).reverse

/-- `String.prototype.toLowerCase` on a list of characters. -/
def jsToLower (s : List Char) : List Char := s.map Char.toLower

/-- `norm` from `src/app.js`: `String(v || '').trim().toLowerCase()`
(the `String(v || '')` coercion is the identity on the strings this app
feeds it). -/
def norm (s : List Char) : List Char := jsToLower (jsTrim s)

/-- `haystack.includes(needle)` on lists of characters: `needle` occurs as a
contiguous substring of `haystack`. -/
def includes (haystack needle : List Char) : Bool :=
  match haystack with
  | [] => needle.isEmpty
  | c :: rest => needle.isPrefixOf (c :: rest) || includes rest needle

/-- One vocabulary record, with its scheduling fields as JS numbers.
(`exampleText` models the record's `example` field; `example` is a Lean
keyword.) -/
structure WordRow where
  word : List Char
  meaning : List Char
  exampleText : List Char
  createdAt : JSNum
  reviewCount : JSNum
  interval : JSNum
  nextReviewAt : JSNum
  lastReviewedAt : JSNum
deriving DecidableEq

/-- `!Number.isFinite(v) || v <= 0`. -/
def JSNum.invalidPos : JSNum → Bool
  | .fin q => decide (q ≤ 0)
  | _ => true

/-- `!Number.isFinite(v) || v < 0`. -/
def JSNum.invalidNeg : JSNum → Bool
  | .fin q => decide (q < 0)
  | _ => true

/-- `!Number.isFinite(v) || v < 1`. -/
def JSNum.invalidLt1 : JSNum → Bool
  | .fin q => decide (q < 1)
  | _ => true

/-- Repair step for a field that must be finite and positive
(`createdAt`, `nextReviewAt`): replaced by `now` when invalid. -/
def fixPos (v : JSNum) (now : ℚ) : JSNum := if v.invalidPos then .fin now else v

/-- Repair step for a field that must be finite and non-negative
(`reviewCount`, `lastReviewedAt`): replaced by `0` when invalid. -/
def fixNeg (v : JSNum) : JSNum := if v.invalidNeg then .fin 0 else v

/-- Repair step for `interval`: must be finite and at least `1`. -/
def fixInterval (v : JSNum) : JSNum := if v.invalidLt1 then .fin 1 else v

/-- `migrationDefaults(row, now)` from `src/app.js`: each scheduling field is
checked independently and replaced by its default when invalid; `changed` is
true when any field was replaced. -/
def migrationDefaults (row : WordRow) (now : ℚ) : WordRow × Bool :=
  ({ row with
      createdAt := fixPos row.createdAt now
      reviewCount := fixNeg row.reviewCount
      interval := fixInterval row.interval
      nextReviewAt := fixPos row.nextReviewAt now
      lastReviewedAt := fixNeg row.lastReviewedAt },
   row.createdAt.invalidPos || row.reviewCount.invalidNeg || row.interval.invalidLt1 ||
     row.nextReviewAt.invalidPos || row.lastReviewedAt.invalidNeg)

theorem fixPos_idem (v : JSNum) (now : ℚ) : fixPos (fixPos v now) now = fixPos v now := by
  unfold fixPos
  split_ifs <;> simp_all

theorem fixNeg_idem (v : JSNum) : fixNeg (fixNeg v) = fixNeg v := by
  unfold fixNeg
  split_ifs <;> simp_all [JSNum.invalidNeg]

theorem fixInterval_idem (v : JSNum) : fixInterval (fixInterval v) = fixInterval v := by
  unfold fixInterval
  split_ifs <;> simp_all [JSNum.invalidLt1]

theorem fixPos_valid (v : JSNum) (now : ℚ) (h : 0 < now) :
    (fixPos v now).invalidPos = false := by
  unfold fixPos
  split_ifs with hv
  · simp [JSNum.invalidPos]
    linarith
  · cases v <;> simp_all [JSNum.invalidPos]

theorem fixNeg_valid (v : JSNum) : (fixNeg v).invalidNeg = false := by
  unfold fixNeg
  split_ifs with hv
  · simp [JSNum.invalidNeg]
  · cases v <;> simp_all [JSNum.invalidNeg]

theorem fixInterval_valid (v : JSNum) : (fixInterval v).invalidLt1 = false := by
  unfold fixInterval
  split_ifs with hv
  · simp [JSNum.invalidLt1]
  · cases v <;> simp_all [JSNum.invalidLt1]

/-- Claim C4 (corrected): the Migration Normalizer is idempotent on the record
value for every reference time `t`: the second application returns the first
application's row unchanged.  Moreover, for every positive reference time
`t` (every real epoch-millisecond clock reading) the second application also
reports `changed = false`.  (At `t ≤ 0` the defaulted `createdAt`/`nextReviewAt`
fields fail their own validity check again, so `changed` is reported `true`
a second time even though the row is unchanged.) -/
theorem migration_idempotent (r : WordRow) (t : ℚ) :
    (migrationDefaults (migrationDefaults r t).1 t).1 = (migrationDefaults r t).1 ∧
      (0 < t → (migrationDefaults (migrationDefaults r t).1 t).2 = false) := by
  constructor
  · simp [migrationDefaults, fixPos_idem, fixNeg_idem, fixInterval_idem]
  · intro h
    simp [migrationDefaults, fixPos_valid _ _ h, fixNeg_valid, fixInterval_valid]

/-- Witness for `migration_idempotent` at a concrete record and time. -/
theorem migration_idempotent_witness :
    (0 : ℚ) < 5 ∧
      (migrationDefaults
          (migrationDefaults ⟨['a'], ['b'], [], .nan, .fin 0, .fin 1, .fin 3, .fin 0⟩ 5).1 5).2
        = false :=
  ⟨by norm_num,
   (migration_idempotent ⟨['a'], ['b'], [], .nan, .fin 0, .fin 1, .fin 3, .fin 0⟩ 5).2
     (by norm_num)⟩

/-- Claim C4 counterexample: at reference time `t = 0`, a record whose
`createdAt` is `NaN` is normalized to `createdAt = 0`, which the normalizer
itself still considers invalid, so applying the normalizer to its own output
reports `changed = true`, not `changed = false` as the claim requires for
every reference time `t`. -/
theorem migration_changed_flag_cex :
    (migrationDefaults
        (migrationDefaults ⟨['a'], ['b'], [], .nan, .fin 0, .fin 1, .fin 3, .fin 0⟩ 0).1 0).2
      = true := by
  decide

/-- The filter body of `applySearch`: the normalized term occurs in the
normalized word or the normalized meaning. -/
def matchesSearch (t : List Char) (r : WordRow) : Bool :=
  includes (norm r.word) t || includes (norm r.meaning) t

/-- `applySearch` from `src/app.js`, restricted to its computation of
`state.filteredWords`: with `t = norm(searchTerm)`, the filtered list is the
matching records when `t` is truthy (non-empty) and `[]` otherwise. -/
def applySearchFiltered (searchTerm : List Char) (words : List WordRow) : List WordRow :=
  let t := norm searchTerm
  if t.isEmpty then [] else words.filter (matchesSearch t)

/-- `getActiveSource` from `src/app.js`: the raw `state.searchTerm` (not its
normalization) decides between the filtered list and the full record set. -/
def getActiveSource (searchTerm : List Char) (words filtered : List WordRow) : List WordRow :=
  if searchTerm.isEmpty then words else filtered

/-- The record list the view is derived from, as the composition
`getActiveSource ∘ applySearch` that the render path performs. -/
def searchView (searchTerm : List Char) (words : List WordRow) : List WordRow :=
  getActiveSource searchTerm words (applySearchFiltered searchTerm words)

theorem norm_nil : norm [] = [] := rfl

/-- Claim C3 (corrected): a raw-empty search term yields the full record set;
a term with non-empty normalization filters by case-insensitive substring
match against the normalized word and meaning; but a *non-empty* term whose
normalization is empty (e.g. whitespace only) yields the empty view, not the
full record set. -/
theorem search_view_spec :
    (∀ words : List WordRow, searchView [] words = words) ∧
      (∀ (term : List Char) (words : List WordRow),
        term ≠ [] → norm term = [] → searchView term words = []) ∧
      (∀ (term : List Char) (words : List WordRow) (r : WordRow),
        norm term ≠ [] →
          (r ∈ searchView term words ↔
            r ∈ words ∧ matchesSearch (norm term) r = true)) := by
  refine ⟨fun words => rfl, ?_, ?_⟩
  · intro term words hne hnorm
    simp [searchView, getActiveSource, applySearchFiltered, hnorm, hne]
  · intro term words r hnorm
    have hterm : term ≠ [] := by
      intro h
      exact hnorm (h ▸ norm_nil)
    simp [searchView, getActiveSource, applySearchFiltered, hterm, hnorm, List.mem_filter]

/-- Witness for `search_view_spec` at a concrete term and record. -/
theorem search_view_spec_witness :
    (⟨['a'], ['b'], [], .fin 1, .fin 0, .fin 1, .fin 1, .fin 0⟩ : WordRow) ∈
        searchView ['A'] [⟨['a'], ['b'], [], .fin 1, .fin 0, .fin 1, .fin 1, .fin 0⟩] ↔
      (⟨['a'], ['b'], [], .fin 1, .fin 0, .fin 1, .fin 1, .fin 0⟩ : WordRow) ∈
          [(⟨['a'], ['b'], [], .fin 1, .fin 0, .fin 1, .fin 1, .fin 0⟩ : WordRow)] ∧
        matchesSearch (norm ['A'])
            ⟨['a'], ['b'], [], .fin 1, .fin 0, .fin 1, .fin 1, .fin 0⟩ = true :=
  search_view_spec.2.2 ['A'] [⟨['a'], ['b'], [], .fin 1, .fin 0, .fin 1, .fin 1, .fin 0⟩]
    ⟨['a'], ['b'], [], .fin 1, .fin 0, .fin 1, .fin 1, .fin 0⟩ (by decide)

/-- Claim C3 counterexample: the term `" "` (one space) has empty
normalization, so by the claim the view should be the full record set; the
code instead produces the empty view, because `getActiveSource` tests the raw
term while `applySearch` stored `[]` for the falsy normalized term. -/
theorem search_empty_norm_cex :
    norm [' '] = [] ∧
      searchView [' '] [⟨['a'], ['b'], [], .fin 1, .fin 0, .fin 1, .fin 1, .fin 0⟩] = [] ∧
      ([] : List WordRow) ≠ [⟨['a'], ['b'], [], .fin 1, .fin 0, .fin 1, .fin 1, .fin 0⟩] := by
  refine ⟨by decide, by decide, by decide⟩

/-- `DEFAULT_PAGE_SIZE` from `src/app.js`. -/
def DEFAULT_PAGE_SIZE : ℚ := 100

/-- `MAX_PAGE_SIZE` from `src/app.js`. -/
def MAX_PAGE_SIZE : ℚ := 200

/-- `getPageCount(totalItems)` from `src/app.js`:
`Math.max(1, Math.ceil(totalItems / state.pageSize))`. -/
def getPageCount (pageSize totalItems : ℕ) : ℕ :=
  max 1 (⌈(totalItems : ℚ) / (pageSize : ℚ)⌉.toNat)

theorem ceil_nat_div (t ps : ℕ) (h : 0 < ps) :
    ⌈(t : ℚ) / (ps : ℚ)⌉ = ((t + ps - 1) / ps : ℕ) := by
  have hps : (0 : ℚ) < (ps : ℚ) := by exact_mod_cast h
  set z : ℕ := (t + ps - 1) / ps with hz
  set m : ℕ := (t + ps - 1) % ps with hmdef
  have hdm : ps * z + m = t + ps - 1 := Nat.div_add_mod _ _
  have hm : m < ps := Nat.mod_lt _ h
  have hpos : 0 < t + ps := by omega
  have h1 : ps * z + m + 1 = t + ps := by
    rw [hdm]
    exact Nat.succ_pred_eq_of_pos hpos
  have hq1 : (ps : ℚ) * z + m + 1 = t + ps := by exact_mod_cast h1
  have hqm : (m : ℚ) < ps := by exact_mod_cast hm
  have hqm1 : (m : ℚ) + 1 ≤ ps := by exact_mod_cast Nat.succ_le_of_lt hm
  have hqm0 : (0 : ℚ) ≤ m := by positivity
  rw [Int.ceil_eq_iff]
  constructor
  · rw [sub_lt_iff_lt_add, div_add' _ _ _ (ne_of_gt hps), lt_div_iff₀ hps]
    push_cast
    nlinarith [mul_comm (z : ℚ) (ps : ℚ)]
  · rw [div_le_iff₀ hps]
    push_cast
    nlinarith [mul_comm (z : ℚ) (ps : ℚ)]

/-- The pagination-relevant state: the current page, the page size, and the
number of items in the active (possibly filtered) source list. -/
structure ViewState where
  currentPage : ℕ
  pageSize : ℕ
  total : ℕ
deriving DecidableEq

/-- The clamp performed at the top of `renderWordListPage`:
`if (state.currentPage > pageCount) state.currentPage = pageCount`. -/
def renderClamp (s : ViewState) : ViewState :=
  if getPageCount s.pageSize s.total < s.currentPage then
    { s with currentPage := getPageCount s.pageSize s.total }
  else s

/-- The pagination-relevant user and data events.  Every handler in
`bindEvents` that touches `currentPage`, `pageSize` or the record set ends by
calling `renderWordListPage`, so each event includes the render clamp:

* `nextPage` / `prevPage`: the pager buttons (`prevPage` is a no-op at page 1);
* `setSort`: the sort select (resets the page to 1);
* `searchApply`: a search-term change (resets the page to 1 and changes the
  active source size);
* `setPageSize`: the page-size select (clamps the size into `[1, 200]` and
  resets the page to 1);
* `mutate`: any store mutation (save / delete / import) — `reloadWords`
  re-runs `applySearch`, which resets the page to 1, then renders;
* `render`: a render with no state change. -/
inductive ViewEvent where
  | nextPage
  | prevPage
  | setSort
  | searchApply (newTotal : ℕ)
  | setPageSize (n : ℕ)
  | mutate (newTotal : ℕ)
  | render
deriving DecidableEq

/-- One pagination event step, ending in the render clamp. -/
def viewStep (s : ViewState) : ViewEvent → ViewState
  | .nextPage => renderClamp { s with currentPage := s.currentPage + 1 }
  | .prevPage =>
    if s.currentPage ≤ 1 then s else renderClamp { s with currentPage := s.currentPage - 1 }
  | .setSort => renderClamp { s with currentPage := 1 }
  | .searchApply t => renderClamp { s with currentPage := 1, total := t }
  | .setPageSize n => renderClamp { s with pageSize := min 200 (max 1 n), currentPage := 1 }
  | .mutate t => renderClamp { s with total := t, currentPage := 1 }
  | .render => renderClamp s

/-- The initial pagination state (`currentPage = 1`, `pageSize = 100`, no
records loaded yet). -/
def initViewState : ViewState := ⟨1, 100, 0⟩

/-- The pagination invariant of claim C5: the current page lies in
`[1, pageCount]`. -/
def viewInvariant (s : ViewState) : Prop :=
  1 ≤ s.currentPage ∧ s.currentPage ≤ getPageCount s.pageSize s.total

theorem one_le_getPageCount (ps t : ℕ) : 1 ≤ getPageCount ps t := le_max_left _ _

theorem renderClamp_invariant (s : ViewState) (h : 1 ≤ s.currentPage) :
    viewInvariant (renderClamp s) := by
  unfold renderClamp viewInvariant
  split_ifs with hc
  · exact ⟨one_le_getPageCount _ _, le_refl _⟩
  · exact ⟨h, not_lt.mp hc⟩

theorem viewStep_invariant (s : ViewState) (e : ViewEvent) (h : viewInvariant s) :
    viewInvariant (viewStep s e) := by
  cases e with
  | nextPage => exact renderClamp_invariant _ (by simp)
  | prevPage =>
    by_cases h1 : s.currentPage ≤ 1
    · simpa [viewStep, h1] using h
    · simp only [viewStep, h1, if_false]
      refine renderClamp_invariant _ ?_
      show 1 ≤ s.currentPage - 1
      omega
  | setSort => exact renderClamp_invariant _ (by simp)
  | searchApply t => exact renderClamp_invariant _ (by simp)
  | setPageSize n => exact renderClamp_invariant _ (by simp)
  | mutate t => exact renderClamp_invariant _ (by simp)
  | render => exact renderClamp_invariant _ h.1

/-- Claim C5 (corrected): the page count is `max(1, ceil(total/pageSize))`
(for positive page size this equals `max 1 ((total + pageSize - 1) / pageSize)`
in natural-number arithmetic), and after every event ending in a render the
current page lies in `[1, pageCount]`.  However, a mutation does not clamp the
current page to the new last page: `reloadWords` re-runs `applySearch`, which
unconditionally resets the current page to `1`; the render-time clamp to the
last page only engages on a next-page overshoot. -/
theorem pagination_invariant :
    (∀ ps t : ℕ, 0 < ps → getPageCount ps t = max 1 ((t + ps - 1) / ps)) ∧
      (∀ evs : List ViewEvent, viewInvariant (evs.foldl viewStep initViewState)) ∧
      (∀ (s : ViewState) (t : ℕ), (viewStep s (ViewEvent.mutate t)).currentPage = 1) := by
  refine ⟨?_, ?_, ?_⟩
  · intro ps t h
    rw [getPageCount, ceil_nat_div t ps h, Int.toNat_natCast]
  · intro evs
    have hinit : viewInvariant initViewState := by
      constructor <;> simp [initViewState, getPageCount]
    induction evs using List.reverseRecOn with
    | nil => exact hinit
    | append_singleton evs e ih =>
      rw [List.foldl_append, List.foldl_cons, List.foldl_nil]
      exact viewStep_invariant _ _ ih
  · intro s t
    have h1 : (1 : ℕ) ≤ getPageCount s.pageSize t := one_le_getPageCount _ _
    simp only [viewStep, renderClamp]
    split_ifs with hc
    · exact absurd hc (by simp; omega)
    · rfl

/-- Witness for `pagination_invariant`: the spec's own scenario, 250 records
at page size 100. -/
theorem pagination_invariant_witness :
    (0 : ℕ) < 100 ∧ getPageCount 100 250 = max 1 ((250 + 100 - 1) / 100) :=
  ⟨by norm_num, pagination_invariant.1 100 250 (by norm_num)⟩

/-- Claim C5 counterexample: with 201 records at page size 100 and the
current page at 3, deleting one record (a mutation dropping the total to 200)
leaves the user on page 1, not on the new last page 2 as the claim requires:
the reload path resets the page to 1 rather than clamping it. -/
theorem pagination_clamp_cex :
    (viewStep ⟨3, 100, 201⟩ (ViewEvent.mutate 200)).currentPage = 1 ∧
      getPageCount 100 200 = 2 ∧ (1 : ℕ) ≠ 2 := by
  refine ⟨?_, ?_, by decide⟩
  · show (renderClamp ⟨1, 100, 200⟩).currentPage = 1
    unfold renderClamp
    rw [if_neg (not_lt.mpr (one_le_getPageCount 100 200))]
  · rw [getPageCount, ceil_nat_div 200 100 (by norm_num), Int.toNat_natCast]
    decide

/-- The page-size and current-page slice of the UI state, as JS values, for
the `pageSizeSelect` change handler. -/
structure PageSizeUI where
  pageSize : JSNum
  currentPage : JSNum
deriving DecidableEq

/-- The `pageSizeSelect` change handler from `bindEvents` in `src/app.js`:
`next = Math.min(MAX_PAGE_SIZE, Math.max(1, Number(value) || DEFAULT_PAGE_SIZE))`,
then `state.pageSize = next; state.currentPage = 1`.  The argument `v` is the
result of `Number(els.pageSizeSelect.value)` (so non-numeric input is `NaN`). -/
def pageSizeChange (v : JSNum) (s : PageSizeUI) : PageSizeUI :=
  let next := jsMinN (.fin MAX_PAGE_SIZE) (jsMaxN (.fin 1) (jsOr v (.fin DEFAULT_PAGE_SIZE)))
  { s with pageSize := next, currentPage := .fin 1 }

/-- Claim C10 (confirmed): changing the page size always yields a finite page
size clamped into `[1, 200]`, substitutes the default `100` when the parsed
input is `NaN` (non-numeric input), and always resets the current page to 1. -/
theorem pageSize_change_clamped (v : JSNum) (s : PageSizeUI) :
    (∃ q : ℚ, (pageSizeChange v s).pageSize = .fin q ∧ 1 ≤ q ∧ q ≤ 200) ∧
      (v = .nan → (pageSizeChange v s).pageSize = .fin 100) ∧
      (pageSizeChange v s).currentPage = .fin 1 := by
  refine ⟨?_, ?_, rfl⟩
  · cases v with
    | fin q =>
      by_cases h0 : q = 0
      · exact ⟨100, by norm_num [pageSizeChange, jsOr, JSNum.truthy, h0, jsMaxN, jsMinN,
          DEFAULT_PAGE_SIZE, MAX_PAGE_SIZE], by norm_num, by norm_num⟩
      · refine ⟨min 200 (max 1 q), ?_, ?_, min_le_left _ _⟩
        · simp [pageSizeChange, jsOr, JSNum.truthy, h0, jsMaxN, jsMinN,
            DEFAULT_PAGE_SIZE, MAX_PAGE_SIZE]
        · exact le_min (by norm_num) (le_max_left _ _)
    | nan =>
      exact ⟨100, by norm_num [pageSizeChange, jsOr, JSNum.truthy, jsMaxN, jsMinN,
        DEFAULT_PAGE_SIZE, MAX_PAGE_SIZE], by norm_num, by norm_num⟩
    | inf =>
      exact ⟨200, by simp [pageSizeChange, jsOr, JSNum.truthy, jsMaxN, jsMinN,
        DEFAULT_PAGE_SIZE, MAX_PAGE_SIZE], by norm_num, by norm_num⟩
    | negInf =>
      exact ⟨1, by simp [pageSizeChange, jsOr, JSNum.truthy, jsMaxN, jsMinN,
        DEFAULT_PAGE_SIZE, MAX_PAGE_SIZE], by norm_num, by norm_num⟩
  · intro hv
    subst hv
    norm_num [pageSizeChange, jsOr, JSNum.truthy, jsMaxN, jsMinN,
      DEFAULT_PAGE_SIZE, MAX_PAGE_SIZE]

/-- Witness for `pageSize_change_clamped`: non-numeric input (`NaN`)
substitutes the default page size 100. -/
theorem pageSize_change_clamped_witness :
    (pageSizeChange .nan ⟨.fin 100, .fin 7⟩).pageSize = .fin 100 :=
  (pageSize_change_clamped .nan ⟨.fin 100, .fin 7⟩).2.1 rfl

/-- Milliseconds per day. -/
def msPerDay : ℚ := 86400000

/-- The local calendar day of epoch-millisecond `now`, under a fixed UTC
offset `tz` (in milliseconds, no DST). -/
def localDay (tz now : ℚ) : ℤ := ⌊(now + tz) / msPerDay⌋

/-- The epoch-millisecond timestamp of local midnight at the start of local
day `d`, under a fixed UTC offset `tz`. -/
def localMidnight (tz : ℚ) (d : ℤ) : ℚ := d * msPerDay - tz

/-- `getNextReviewAt(intervalDays)` from `src/app.js`:
`new Date(now)` with `setHours(0,0,0,0)` is local midnight of the current
local day, and `setDate(getDate() + intervalDays)` advances it `intervalDays`
calendar days (in the fixed-offset model, `intervalDays * 86400000` ms).
A non-finite `intervalDays` makes the date invalid, so `getTime()` is `NaN`.
The finite values it receives from `reviewStep` are always integers
(`Math.max(1, Math.round(..))` or the literal `1`). -/
def getNextReviewAtN (tz now : ℚ) : JSNum → JSNum
  | .fin k => .fin (localMidnight tz (localDay tz now) + k * msPerDay)
  | _ => .nan

/-- `reviewStep(isKnown)` from `src/app.js`, restricted to the record update
it builds for the current review item:
`nextInterval = isKnown ? Math.max(1, Math.round((current.interval || 1) * 2)) : 1`,
then `interval`, `lastReviewedAt`, `nextReviewAt` and `reviewCount` are
replaced as written in the source. -/
def reviewStep (tz : ℚ) (current : WordRow) (now : ℚ) (isKnown : Bool) : WordRow :=
  let nextInterval : JSNum :=
    if isKnown then jsMaxN (.fin 1) (jsRoundN (jsMul (jsOr current.interval (.fin 1)) (.fin 2)))
    else .fin 1
  { current with
      interval := nextInterval
      lastReviewedAt := .fin now
      nextReviewAt :=
        if isKnown then getNextReviewAtN tz now nextInterval else getNextReviewAtN tz now (.fin 1)
      reviewCount :=
        if isKnown then jsAdd (jsOr current.reviewCount (.fin 0)) (.fin 1)
        else jsOr current.reviewCount (.fin 0) }

theorem jsOr_fin_zero (q : ℚ) : jsOr (.fin q) (.fin 0) = .fin q := by
  unfold jsOr JSNum.truthy
  split_ifs with h
  · rfl
  · simp at h
    rw [h]

theorem jsOr_fin_one (q : ℚ) (h : q ≠ 0) : jsOr (.fin q) (.fin 1) = .fin q := by
  simp [jsOr, JSNum.truthy, h]

/-- Claim C1 (corrected): for every record whose `interval` and `reviewCount`
are finite and whose `interval` is non-zero (in particular every record
satisfying the data-model invariant `interval ≥ 1`), a `known` review yields
`interval' = max(1, round(interval * 2))`, `reviewCount' = reviewCount + 1`
and `lastReviewedAt' = now`, and an `unknown` review yields `interval' = 1`,
`reviewCount' = reviewCount` and `lastReviewedAt' = now`.  (At the finite
value `interval = 0` the code computes `(interval || 1) * 2 = 2`, not the
claimed `max(1, round(0 * 2)) = 1`, so the zero case is excluded.) -/
theorem reviewStep_outcomes (tz now : ℚ) (r : WordRow) (i rc : ℚ)
    (hi : r.interval = .fin i) (hi0 : i ≠ 0) (hrc : r.reviewCount = .fin rc) :
    (reviewStep tz r now true).interval = .fin ((max 1 (round (i * 2)) : ℤ) : ℚ) ∧
      (reviewStep tz r now true).reviewCount = .fin (rc + 1) ∧
      (reviewStep tz r now true).lastReviewedAt = .fin now ∧
      (reviewStep tz r now false).interval = .fin 1 ∧
      (reviewStep tz r now false).reviewCount = .fin rc ∧
      (reviewStep tz r now false).lastReviewedAt = .fin now := by
  refine ⟨?_, ?_, rfl, rfl, ?_, rfl⟩
  · show jsMaxN (.fin 1) (jsRoundN (jsMul (jsOr r.interval (.fin 1)) (.fin 2))) =
      .fin ((max 1 (round (i * 2)) : ℤ) : ℚ)
    rw [hi, jsOr_fin_one i hi0]
    show JSNum.fin (max 1 ((round (i * 2) : ℤ) : ℚ)) = _
    rw [Int.cast_max]
    norm_num
  · show jsAdd (jsOr r.reviewCount (.fin 0)) (.fin 1) = .fin (rc + 1)
    rw [hrc, jsOr_fin_zero]
    rfl
  · show jsOr r.reviewCount (.fin 0) = .fin rc
    rw [hrc, jsOr_fin_zero]

/-- Witness for `reviewStep_outcomes` at a concrete record (`interval = 3`,
`reviewCount = 2`): a `known` review yields `interval = 6` and
`reviewCount = 3`. -/
theorem reviewStep_outcomes_witness :
    (reviewStep 0 ⟨['a'], ['b'], [], .fin 1, .fin 2, .fin 3, .fin 1, .fin 0⟩ 5 true).interval
        = .fin ((max 1 (round ((3 : ℚ) * 2)) : ℤ) : ℚ) ∧
      (reviewStep 0 ⟨['a'], ['b'], [], .fin 1, .fin 2, .fin 3, .fin 1, .fin 0⟩ 5 true).reviewCount
        = .fin (2 + 1) :=
  ⟨(reviewStep_outcomes 0 5 ⟨['a'], ['b'], [], .fin 1, .fin 2, .fin 3, .fin 1, .fin 0⟩ 3 2
      rfl (by norm_num) rfl).1,
   (reviewStep_outcomes 0 5 ⟨['a'], ['b'], [], .fin 1, .fin 2, .fin 3, .fin 1, .fin 0⟩ 3 2
      rfl (by norm_num) rfl).2.1⟩

/-- Claim C1 counterexample: at the finite field value `interval = 0`, a
`known` review produces `interval' = 2` (the code defaults the falsy `0` to
`1` before doubling), while the claimed formula `max(1, round(interval * 2))`
evaluates to `1`. -/
theorem reviewStep_claimed_formula_cex :
    (reviewStep 0 ⟨['a'], ['b'], [], .fin 1, .fin 0, .fin 0, .fin 1, .fin 0⟩ 5 true).interval
        = .fin 2 ∧
      ((max 1 (round ((0 : ℚ) * 2)) : ℤ) : ℚ) = 1 := by
  constructor
  · show jsMaxN (.fin 1) (jsRoundN (jsMul (jsOr (.fin 0) (.fin 1)) (.fin 2))) = .fin 2
    norm_num [jsOr, JSNum.truthy, jsMul, jsRoundN, jsMaxN]
  · norm_num

/-- Claim C9 (confirmed): for every record satisfying the `interval ≥ 1`
invariant, both review outcomes set `nextReviewAt` to the epoch-millisecond
timestamp of local midnight at the start of the calendar day `interval'` days
after today, where `interval' = max(1, round(interval * 2))` for `known` and
`interval' = 1` for `unknown` (local time modelled with a fixed UTC offset). -/
theorem reviewStep_next_review_midnight (tz now : ℚ) (r : WordRow) (i : ℚ)
    (isKnown : Bool) (hi : r.interval = .fin i) (hi1 : 1 ≤ i) :
    (reviewStep tz r now isKnown).nextReviewAt =
      .fin (localMidnight tz
        (localDay tz now + (if isKnown then max 1 (round (i * 2)) else 1))) := by
  have hi0 : i ≠ 0 := by linarith
  cases isKnown with
  | false =>
    show getNextReviewAtN tz now (.fin 1) = _
    simp only [getNextReviewAtN, localMidnight, if_false]
    congr 1
    push_cast
    ring
  | true =>
    show getNextReviewAtN tz now
        (jsMaxN (.fin 1) (jsRoundN (jsMul (jsOr r.interval (.fin 1)) (.fin 2)))) = _
    rw [hi, jsOr_fin_one i hi0]
    show JSNum.fin (localMidnight tz (localDay tz now) +
        max 1 ((round (i * 2) : ℤ) : ℚ) * msPerDay) = _
    simp only [localMidnight, if_true]
    congr 1
    push_cast [Int.cast_max]
    ring

/-- Witness for `reviewStep_next_review_midnight` at a concrete record
(`interval = 1`) reviewed as `known` at `tz = 0`, `now = 0`. -/
theorem reviewStep_next_review_midnight_witness :
    (reviewStep 0 ⟨['a'], ['b'], [], .fin 1, .fin 0, .fin 1, .fin 1, .fin 0⟩ 0 true).nextReviewAt
      = .fin (localMidnight 0 (localDay 0 0 + max 1 (round ((1 : ℚ) * 2)))) := by
  have h := reviewStep_next_review_midnight 0 0
    ⟨['a'], ['b'], [], .fin 1, .fin 0, .fin 1, .fin 1, .fin 0⟩ 1 true rfl (by norm_num)
  simpa using h

/-- One loosely-typed object from an import payload array: string fields
after the `String(row?.x || '')` coercion, numeric fields after the
`Number(row?.x)` coercion (absent or non-numeric becomes `NaN`). -/
structure ImportRow where
  word : List Char
  meaning : List Char
  exampleText : List Char
  createdAt : JSNum
  reviewCount : JSNum
  interval : JSNum
  nextReviewAt : JSNum
  lastReviewedAt : JSNum
deriving DecidableEq

/-- The dedup key `` `${norm(word)}|${norm(meaning)}` `` from `importBackup`. -/
def dedupKey (w m : List Char) : List Char := norm w ++ '|' :: norm m

/-- The dedup key of a stored record. -/
def rowKey (r : WordRow) : List Char := dedupKey r.word r.meaning

/-- `state.words.map((r) => norm(r.word)|norm(r.meaning))`: the key set built
from the stored records (modelled as a list; only membership is used). -/
def existingKeys (words : List WordRow) : List (List Char) := words.map rowKey

/-- The per-row validity test of the import loop: both `word` and `meaning`
non-empty after trimming (`if (!word || !meaning) continue`). -/
def importRowValid (r : ImportRow) : Bool :=
  !(jsTrim r.word).isEmpty && !(jsTrim r.meaning).isEmpty

/-- The dedup key computed for an import row (from the trimmed fields). -/
def importRowKey (r : ImportRow) : List Char :=
  dedupKey (jsTrim r.word) (jsTrim r.meaning)

/-- The record inserted for an import row: the trimmed strings and coerced
numbers (`createdAt: Number(..) || now`, `reviewCount: Number(..) || 0`, the
rest passed through) run through `migrationDefaults`. -/
def rowOfImport (r : ImportRow) (now : ℚ) : WordRow :=
  (migrationDefaults
    ⟨jsTrim r.word, jsTrim r.meaning, jsTrim r.exampleText,
      jsOr r.createdAt (.fin now), jsOr r.reviewCount (.fin 0),
      r.interval, r.nextReviewAt, r.lastReviewedAt⟩ now).1

/-- The import loop of `importBackup`: skip rows with an empty trimmed word
or meaning, skip rows whose dedup key is already in the key set (stored
records or rows inserted earlier in the same pass), otherwise normalize and
insert, adding the key to the set.  Returns the inserted records in order and
their count. -/
def importPass (now : ℚ) : List ImportRow → List (List Char) → List WordRow × ℕ
  | [], _ => ([], 0)
  | r :: rest, keys =>
    if importRowValid r = false then importPass now rest keys
    else if importRowKey r ∈ keys then importPass now rest keys
    else
      let out := importPass now rest (importRowKey r :: keys)
      (rowOfImport r now :: out.1, out.2 + 1)

/-- `importBackup` on an already-parsed array: the key set is seeded from the
stored records, and the inserted records are appended to the store (the store
assigns increasing ids, so `getAll` returns old records then new ones). -/
def importBackupRows (words : List WordRow) (rows : List ImportRow) (now : ℚ) :
    List WordRow × ℕ :=
  let out := importPass now rows (existingKeys words)
  (words ++ out.1, out.2)

theorem rowKey_rowOfImport (r : ImportRow) (now : ℚ) :
    rowKey (rowOfImport r now) = importRowKey r := rfl

theorem importPass_key_covered (now : ℚ) (rows : List ImportRow) :
    ∀ (K : List (List Char)) (r : ImportRow), r ∈ rows → importRowValid r = true →
      importRowKey r ∈ K ∨ importRowKey r ∈ existingKeys (importPass now rows K).1 := by
  induction rows with
  | nil =>
    intro K r h
    simp at h
  | cons r0 rest ih =>
    intro K r hmem hvalid
    rcases List.mem_cons.mp hmem with rfl | hr
    · rw [importPass, hvalid]
      simp only [Bool.true_eq_false, if_false]
      by_cases hk : importRowKey r ∈ K
      · exact Or.inl hk
      · rw [if_neg hk]
        right
        rw [existingKeys, List.map_cons, rowKey_rowOfImport]
        exact List.mem_cons_self _ _
    · rw [importPass]
      by_cases hv0 : importRowValid r0 = false
      · rw [if_pos hv0]
        exact ih K r hr hvalid
      · rw [if_neg hv0]
        by_cases hk0 : importRowKey r0 ∈ K
        · rw [if_pos hk0]
          exact ih K r hr hvalid
        · rw [if_neg hk0]
          rcases ih (importRowKey r0 :: K) r hr hvalid with hin | hin
          · rcases List.mem_cons.mp hin with heq | hin'
            · right
              rw [existingKeys, List.map_cons, rowKey_rowOfImport, heq]
              exact List.mem_cons_self _ _
            · exact Or.inl hin'
          · right
            rw [existingKeys, List.map_cons]
            exact List.mem_cons_of_mem _ hin

theorem importPass_all_dup (now : ℚ) (rows : List ImportRow) :
    ∀ K : List (List Char),
      (∀ r : ImportRow, r ∈ rows → importRowValid r = true → importRowKey r ∈ K) →
      importPass now rows K = ([], 0) := by
  induction rows with
  | nil =>
    intro K _
    rfl
  | cons r0 rest ih =>
    intro K h
    rw [importPass]
    by_cases hv0 : importRowValid r0 = false
    · rw [if_pos hv0]
      exact ih K fun r hr hv => h r (List.mem_cons_of_mem _ hr) hv
    · rw [if_neg hv0]
      have hk0 : importRowKey r0 ∈ K :=
        h r0 (List.mem_cons_self _ _) (by revert hv0; cases importRowValid r0 <;> simp)
      rw [if_pos hk0]
      exact ih K fun r hr hv => h r (List.mem_cons_of_mem _ hr) hv

theorem importPass_keys_fresh (now : ℚ) (rows : List ImportRow) :
    ∀ K : List (List Char),
      (existingKeys (importPass now rows K).1).Nodup ∧
        ∀ k, k ∈ existingKeys (importPass now rows K).1 → k ∉ K := by
  induction rows with
  | nil =>
    intro K
    constructor
    · simp [importPass, existingKeys]
    · intro k hk
      simp [importPass, existingKeys] at hk
  | cons r0 rest ih =>
    intro K
    rw [importPass]
    by_cases hv0 : importRowValid r0 = false
    · rw [if_pos hv0]
      exact ih K
    · rw [if_neg hv0]
      by_cases hk0 : importRowKey r0 ∈ K
      · rw [if_pos hk0]
        exact ih K
      · rw [if_neg hk0]
        have hrec := ih (importRowKey r0 :: K)
        constructor
        · rw [existingKeys, List.map_cons, rowKey_rowOfImport]
          refine List.nodup_cons.mpr ⟨?_, hrec.1⟩
          intro hin
          exact hrec.2 _ hin (List.mem_cons_self _ _)
        · intro k hk
          rw [existingKeys, List.map_cons, rowKey_rowOfImport] at hk
          rcases List.mem_cons.mp hk with rfl | hk'
          · exact hk0
          · intro hkK
            exact hrec.2 _ hk' (List.mem_cons_of_mem _ hkK)

/-- Claim C7 (confirmed): import has duplicate suppression and is idempotent:
re-importing the same array (at any later time) into the record set produced
by the first import inserts zero records and leaves the record set unchanged;
dedup keys depend only on the case/space-normalized word and meaning, so
case/space variants of the same pair collide; and the keys of the records
inserted by one pass are pairwise distinct and fresh with respect to the
stored records (each entry is inserted at most once). -/
theorem import_dedup_idempotent :
    (∀ (words : List WordRow) (rows : List ImportRow) (now now' : ℚ),
      importBackupRows (importBackupRows words rows now).1 rows now' =
        ((importBackupRows words rows now).1, 0)) ∧
      (∀ w1 m1 w2 m2 : List Char, norm w1 = norm w2 → norm m1 = norm m2 →
        dedupKey w1 m1 = dedupKey w2 m2) ∧
      (∀ (now : ℚ) (rows : List ImportRow) (words : List WordRow),
        (existingKeys (importPass now rows (existingKeys words)).1).Nodup ∧
          ∀ k, k ∈ existingKeys (importPass now rows (existingKeys words)).1 →
            k ∉ existingKeys words) := by
  refine ⟨?_, ?_, ?_⟩
  · intro words rows now now'
    have hall : ∀ r : ImportRow, r ∈ rows → importRowValid r = true →
        importRowKey r ∈ existingKeys (words ++ (importPass now rows (existingKeys words)).1) := by
      intro r hr hv
      rw [existingKeys, List.map_append]
      rcases importPass_key_covered now rows (existingKeys words) r hr hv with h | h
      · exact List.mem_append_left _ h
      · exact List.mem_append_right _ h
    simp only [importBackupRows]
    rw [importPass_all_dup now' rows _ hall]
    simp
  · intro w1 m1 w2 m2 hw hm
    rw [dedupKey, dedupKey, hw, hm]
  · intro now rows words
    exact importPass_keys_fresh now rows (existingKeys words)

/-- Witness for `import_dedup_idempotent`: a case/space variant
(`"Apple "` vs `"apple"`) produces the same dedup key. -/
theorem import_dedup_idempotent_witness :
    dedupKey ['A', 'p', 'p', 'l', 'e', ' '] ['b'] = dedupKey ['a', 'p', 'p', 'l', 'e'] ['b'] :=
  import_dedup_idempotent.2.1 ['A', 'p', 'p', 'l', 'e', ' '] ['b'] ['a', 'p', 'p', 'l', 'e'] ['b']
    (by decide) rfl

/-- An import payload after `JSON.parse`: either the parse threw, or it
produced an array of rows, or it produced some non-array JSON value (the code
never inspects a non-array value beyond `Array.isArray`). -/
inductive ImportPayload where
  | parseFailure
  | notArray
  | arrayRows (rows : List ImportRow)
deriving DecidableEq

/-- The outcome of `importBackup`: the resulting stored record set, the number
of inserted records, and the status message shown to the user. -/
structure ImportOutcome where
  words : List WordRow
  inserted : ℕ
  status : String
deriving DecidableEq

/-- `importBackup(file)` from `src/app.js` after reading the file text: a
parse failure or a non-array value aborts with an error status and no
insertion; an array runs the dedup/normalize insert loop. -/
def importBackup (words : List WordRow) (p : ImportPayload) (now : ℚ) : ImportOutcome :=
  match p with
  | .parseFailure => ⟨words, 0, "Invalid JSON file."⟩
  | .notArray => ⟨words, 0, "Backup format must be a JSON array."⟩
  | .arrayRows rows =>
    let out := importBackupRows words rows now
    ⟨out.1, out.2, "Imported " ++ toString out.2 ++ " new words."⟩

/-- Claim C8 (confirmed): a payload that parses but is not a JSON array is
rejected with an explicit error message, the import is aborted, and the
stored record set is unchanged with zero records inserted. -/
theorem import_not_array_rejected (words : List WordRow) (now : ℚ) :
    importBackup words .notArray now =
      ⟨words, 0, "Backup format must be a JSON array."⟩ := rfl

/-- Observable actions of the backup synchronizer, in program order. -/
inductive BackupAction where
  | permCheck (granted : Bool)
  | writeStart (reason : String)
  | writeDone (reason : String) (snapshot : List WordRow)
  | writeFail (reason : String)
  | statusMsg (msg : String)
deriving DecidableEq

/-- The backup-relevant slice of `state` in `src/app.js`, plus a history of
completed writes and an action log for stating ordering properties:
`currentWrite` holds the reason and the serialized snapshot of the write
currently in flight. -/
structure BackupState where
  backupHandle : Bool
  backupInFlight : Bool
  pendingBackupReason : Option String
  words : List WordRow
  currentWrite : Option (String × List WordRow)
  completed : List (String × List WordRow)
  log : List BackupAction
deriving DecidableEq

/-- The status message of the `catch` branch of `backupToLinkedFile`. -/
def relinkMsg : String := "Auto backup failed. Relink backup file."

/-- The status message of a successful write. -/
def syncedMsg (reason : String) : String := "Backup synced (" ++ reason ++ ")"

/-- The synchronous prefix of `backupToLinkedFile(reason)` (everything up to
the first `await`): bail out if no file is linked; if a write is in flight,
record `reason` as the single pending request (replacing any earlier one);
otherwise mark a write in flight whose data is the serialization of the
current `state.words`. -/
def backupRequest (reason : String) (s : BackupState) : BackupState :=
  if !s.backupHandle then s
  else if s.backupInFlight then { s with pendingBackupReason := some reason }
  else
    { s with
        backupInFlight := true
        currentWrite := some (reason, s.words)
        log := s.log ++ [.writeStart reason] }

/-- The completion of the in-flight write of `backupToLinkedFile`: on success
the snapshot taken at start is durably written and a sync status is shown; on
failure the error is caught and the relink status is shown.  Either way the
`finally` block clears the in-flight flag and, if a pending request was
recorded, immediately re-invokes `backupToLinkedFile` with it (the
`queueMicrotask` hop is modelled as running at completion time). -/
def backupComplete (ok : Bool) (s : BackupState) : BackupState :=
  match s.currentWrite with
  | none => s
  | some (reason, snap) =>
    let s1 :=
      if ok then
        { s with
            completed := s.completed ++ [(reason, snap)]
            log := s.log ++
              [BackupAction.writeDone reason snap, BackupAction.statusMsg (syncedMsg reason)] }
      else
        { s with log := s.log ++ [BackupAction.writeFail reason, BackupAction.statusMsg relinkMsg] }
    let s2 := { s1 with backupInFlight := false, currentWrite := none }
    match s2.pendingBackupReason with
    | some next => backupRequest next { s2 with pendingBackupReason := none }
    | none => s2

/-- The body of the debounce timer set by `scheduleAutoBackup` (also the body
of `doImmediateExitBackup` and of the startup path in `initBackupHandle`):
`ensureBackupPermission()` is called (its result is the `granted` argument)
and the write is attempted only when permission is granted. -/
def backupTimerFire (reason : String) (granted : Bool) (s : BackupState) : BackupState :=
  let s1 := { s with log := s.log ++ [.permCheck granted] }
  if granted then backupRequest reason s1 else s1

/-- A record-set mutation observed while a backup may be in flight. -/
def setWords (ws : List WordRow) (s : BackupState) : BackupState := { s with words := ws }

/-- A freshly linked backup state: file handle present, no write in flight,
no pending request, current record set `ws`. -/
def initBackup (ws : List WordRow) : BackupState :=
  ⟨true, false, none, ws, none, [], []⟩

/-- Every `writeStart` in the log is immediately preceded by a granted
permission check. -/
def checkedFrom : Option BackupAction → List BackupAction → Bool
  | _, [] => true
  | prev, a :: rest =>
    (match a with
     | BackupAction.writeStart _ => decide (prev = some (BackupAction.permCheck true))
     | _ => true) && checkedFrom (some a) rest

/-- Every write attempt in the log was immediately preceded by a granted
permission re-validation. -/
def everyWriteStartChecked (log : List BackupAction) : Bool := checkedFrom none log

theorem backupRequest_completed (r : String) (s : BackupState) :
    (backupRequest r s).completed = s.completed := by
  unfold backupRequest
  split_ifs <;> rfl

theorem backupRequest_log_mem (a : BackupAction) (r : String) (s : BackupState)
    (h : a ∈ s.log) : a ∈ (backupRequest r s).log := by
  unfold backupRequest
  split_ifs <;> simp [h]

/-- Claim C2 (confirmed): a `backupToLinkedFile` request arriving while a
write is in flight only records its reason as the single pending request
(replacing any earlier pending reason) and changes nothing else — in
particular it starts no concurrent write; and the concrete scenario
`backupNow('a')` then `backupNow('b')` while the first write is in flight
(with the record set mutating from `w0` to `w1` in between) completes exactly
two writes: first `('a', w0)`, then `('b', w1)` — the pending request runs
right after the in-flight write finishes, with the reason `'b'` and the
record-set state at the time it runs. -/
theorem backup_coalescing :
    (∀ (s : BackupState) (r : String), s.backupHandle = true → s.backupInFlight = true →
      backupRequest r s = { s with pendingBackupReason := some r }) ∧
      (∀ w0 w1 : List WordRow,
        (backupComplete true (backupComplete true
            (setWords w1 (backupRequest "b" (backupRequest "a" (initBackup w0)))))).completed
          = [("a", w0), ("b", w1)]) := by
  constructor
  · intro s r h1 h2
    simp [backupRequest, h1, h2]
  · intro w0 w1
    rfl

/-- Witness for `backup_coalescing`: a request during an in-flight write only
sets the pending reason. -/
theorem backup_coalescing_witness :
    backupRequest "x" ⟨true, true, some "w", [], some ("a", []), [], []⟩ =
      { (⟨true, true, some "w", [], some ("a", []), [], []⟩ : BackupState) with
          pendingBackupReason := some "x" } :=
  backup_coalescing.1 ⟨true, true, some "w", [], some ("a", []), [], []⟩ "x" rfl rfl

/-- Claim C6 (corrected): permission is re-validated before the
debounce-timer, startup, and teardown-triggered write attempts, and when it
is not granted the write is simply skipped (silently — no relink message) and
nothing crashes; a failing write attempt is caught and surfaced as the
recoverable relink status message.  However, the *pending* write executed
right after an in-flight write finishes is issued directly from the `finally`
block without re-validation — witness the contrast trace in which every
write start that goes through the timer path is immediately preceded by a
granted permission check. -/
theorem backup_revalidation :
    (∀ (s : BackupState) (r : String),
      backupTimerFire r false s = { s with log := s.log ++ [BackupAction.permCheck false] }) ∧
      (∀ (s : BackupState) (cw : String × List WordRow), s.currentWrite = some cw →
        (backupComplete false s).completed = s.completed ∧
          BackupAction.statusMsg relinkMsg ∈ (backupComplete false s).log) ∧
      (everyWriteStartChecked ((backupComplete true (backupTimerFire "b" true
          (backupComplete true (backupTimerFire "a" true (initBackup []))))).log) = true) := by
  refine ⟨fun s r => rfl, ?_, rfl⟩
  intro s cw h
  obtain ⟨reason, snap⟩ := cw
  obtain ⟨bh, infl, pend, ws, cw', comp, lg⟩ := s
  change cw' = some (reason, snap) at h
  subst h
  cases pend with
  | none =>
    refine ⟨rfl, ?_⟩
    show BackupAction.statusMsg relinkMsg ∈
      lg ++ [BackupAction.writeFail reason, BackupAction.statusMsg relinkMsg]
    simp
  | some next =>
    constructor
    · show (backupRequest next _).completed = comp
      rw [backupRequest_completed]
      rfl
    · show BackupAction.statusMsg relinkMsg ∈ (backupRequest next _).log
      refine backupRequest_log_mem _ _ _ ?_
      show BackupAction.statusMsg relinkMsg ∈
        lg ++ [BackupAction.writeFail reason, BackupAction.statusMsg relinkMsg]
      simp

/-- Witness for `backup_revalidation`: completing a failed write keeps the
completed-write history unchanged and surfaces the relink status. -/
theorem backup_revalidation_witness :
    (backupComplete false ⟨true, true, none, [], some ("a", []), [], []⟩).completed = [] ∧
      BackupAction.statusMsg relinkMsg ∈
        (backupComplete false ⟨true, true, none, [], some ("a", []), [], []⟩).log :=
  backup_revalidation.2.1 ⟨true, true, none, [], some ("a", []), [], []⟩ ("a", []) rfl

/-- Claim C6 counterexample: in the trace `backupNow('a')` (timer path, check
granted), `backupNow('b')` while `'a'` is in flight (timer path, check
granted, recorded as pending), then two write completions, the pending write
for `'b'` starts with no permission re-validation between the completion of
`'a'` and its own start — so it is not the case that permission is
re-validated before *every* write attempt.  The write for `'b'` nevertheless
completes, showing the unchecked attempt is a real write. -/
theorem pending_write_unchecked_cex :
    everyWriteStartChecked ((backupComplete true (backupComplete true
        (backupTimerFire "b" true (backupTimerFire "a" true (initBackup []))))).log) = false ∧
      (backupComplete true (backupComplete true
          (backupTimerFire "b" true (backupTimerFire "a" true (initBackup []))))).completed
        = [("a", []), ("b", [])] :=
  ⟨rfl, rfl⟩

end VocaApp
